import Mathlib

/-!
Verification of the AutoSpeedLimit plugin (src/plugins.v2/autospeedlimit/__init__.py).

The development shallowly embeds the plugin's rule-resolution core:

* `SpeedRule` models one entry of `self._speed_rules` (a dict with optional
  keys `cron`, `upload_limit`, `download_limit`).
* `DateTime` models `datetime.datetime` at minute precision, compared
  chronologically through the injective encoding `DateTime.key`
  (lexicographic on year, month, day, hour, minute, exactly the order
  Python uses on valid datetimes).
* `parseCron` models the `croniter(expr, now)` constructor: it parses a
  5-field cron expression (lists, ranges, steps, stars) and fails on
  malformed input, which in the Python code raises and lands in the
  `except` branch.
* `CronExpr.prevFiring` / `CronExpr.nextFiring` model `iter.get_prev` /
  `iter.get_next`: the latest firing instant `≤ now`, and the earliest
  firing instant `> now`.  (`datetime.now()` carries a sub-minute residue,
  so croniter's strictly-before/strictly-after search at second precision
  collapses to exactly these minute-precision bounds; `get_next` after
  `get_prev` moves the cursor to `prev`, and since no firing lies strictly
  between `prev` and `now`, the result again is the first firing after
  `now`.)  The searches are fuel-bounded, mirroring croniter's bounded
  search window; exhaustion models the exception croniter raises when no
  firing is found, which the plugin catches and treats as a skipped rule.
* `get_current_rule`, `get_next_rule_change_time`, `get_current_state` and
  the limit conversion of `check_and_set_speed_limit` are translated
  line by line from the source.
-/

namespace AutoSpeedLimit

/-- `datetime.datetime` truncated to minute precision. -/
structure DateTime where
  year : Nat
  month : Nat
  day : Nat
  hour : Nat
  minute : Nat
deriving DecidableEq

/-- Injective chronological encoding of a (valid) `DateTime`; the
multipliers 13, 32, 24, 60 strictly bound the field ranges, so on valid
datetimes `key` ordering coincides with Python's `datetime` ordering. -/
def DateTime.key (t : DateTime) : Nat :=
  (((t.year * 13 + t.month) * 32 + t.day) * 24 + t.hour) * 60 + t.minute

/-- Gregorian leap-year test. -/
def isLeapYear (y : Nat) : Bool :=
  y % 4 == 0 && (y % 100 != 0 || y % 400 == 0)

/-- Number of days of month `m` of year `y` (months outside 1..12 are given
31 days so that the function is total; such dates never arise from valid
datetimes). -/
def daysInMonth (y m : Nat) : Nat :=
  if m = 2 then (if isLeapYear y then 29 else 28)
  else if m = 4 ∨ m = 6 ∨ m = 9 ∨ m = 11 then 30
  else 31

/-- A `DateTime` whose fields denote a real calendar instant. -/
def DateTime.valid (t : DateTime) : Prop :=
  t.minute < 60 ∧ t.hour < 24 ∧ 1 ≤ t.day ∧ t.day ≤ daysInMonth t.year t.month ∧
    1 ≤ t.month ∧ t.month ≤ 12

instance (t : DateTime) : Decidable t.valid := by
  unfold DateTime.valid; infer_instance

/-- Day of week in cron convention (0 = Sunday .. 6 = Saturday), by
Zeller's congruence. -/
def dayOfWeek (y m d : Nat) : Nat :=
  let y' := if m < 3 then y - 1 else y
  let m' := if m < 3 then m + 12 else m
  let k := y' % 100
  let j := y' / 100
  (d + (13 * (m' + 1)) / 5 + k + k / 4 + j / 4 + 5 * j + 6) % 7

/-- First minute of the day after `t`'s day. -/
def DateTime.nextDayStart (t : DateTime) : DateTime :=
  if t.day + 1 ≤ daysInMonth t.year t.month then ⟨t.year, t.month, t.day + 1, 0, 0⟩
  else if t.month + 1 ≤ 12 then ⟨t.year, t.month + 1, 1, 0, 0⟩
  else ⟨t.year + 1, 1, 1, 0, 0⟩

/-- First minute of the hour after `t`'s hour. -/
def DateTime.nextHourStart (t : DateTime) : DateTime :=
  if t.hour + 1 < 24 then ⟨t.year, t.month, t.day, t.hour + 1, 0⟩ else t.nextDayStart

/-- The minute after `t`. -/
def DateTime.addMinute (t : DateTime) : DateTime :=
  if t.minute + 1 < 60 then ⟨t.year, t.month, t.day, t.hour, t.minute + 1⟩ else t.nextHourStart

/-- Last minute of the day before `t`'s day. -/
def DateTime.prevDayEnd (t : DateTime) : DateTime :=
  if 2 ≤ t.day then ⟨t.year, t.month, t.day - 1, 23, 59⟩
  else if 2 ≤ t.month then ⟨t.year, t.month - 1, daysInMonth t.year (t.month - 1), 23, 59⟩
  else ⟨t.year - 1, 12, 31, 23, 59⟩

/-- Last minute of the hour before `t`'s hour. -/
def DateTime.prevHourEnd (t : DateTime) : DateTime :=
  if 1 ≤ t.hour then ⟨t.year, t.month, t.day, t.hour - 1, 59⟩ else t.prevDayEnd

/-- The minute before `t`. -/
def DateTime.subMinute (t : DateTime) : DateTime :=
  if 1 ≤ t.minute then ⟨t.year, t.month, t.day, t.hour, t.minute - 1⟩ else t.prevHourEnd

/-- A parsed 5-field cron expression: the allowed values of each field,
plus whether the day-of-month / day-of-week fields were literal `*`
(which drives the standard vixie-cron OR rule for day matching). -/
structure CronExpr where
  minutes : List Nat
  hours : List Nat
  doms : List Nat
  months : List Nat
  dows : List Nat
  domStar : Bool
  dowStar : Bool
deriving DecidableEq

/-- Splits a character list on a separator character (auxiliary). -/
def splitListAux (sep : Char) : List Char → List Char → List (List Char)
  | [], acc => [acc.reverse]
  | ch :: rest, acc =>
    if ch = sep then acc.reverse :: splitListAux sep rest []
    else splitListAux sep rest (ch :: acc)

/-- Splits a character list on a separator character. -/
def splitList (sep : Char) (cs : List Char) : List (List Char) :=
  splitListAux sep cs []

/-- Parses a non-empty all-digit character list as a decimal number. -/
def parseNatChars (cs : List Char) : Option Nat :=
  match cs with
  | [] => none
  | _ =>
    cs.foldl
      (fun acc ch =>
        match acc with
        | none => none
        | some n => if '0' ≤ ch ∧ ch ≤ '9' then some (n * 10 + (ch.toNat - 48)) else none)
      (some 0)

/-- The values `lo, lo+step, ...` up to `hi`. -/
def rangeList (lo hi step : Nat) : List Nat :=
  (List.range' lo (hi + 1 - lo)).filter (fun v => (v - lo) % step == 0)

/-- Parses the base of a cron field part: `*`, a single value, or a range
`a-b`, checked against the field bounds `lo..hi`. -/
def parseBase (lo hi : Nat) (cs : List Char) : Option (Nat × Nat) :=
  if cs = ['*'] then some (lo, hi)
  else
    match splitList '-' cs with
    | [a] =>
      match parseNatChars a with
      | some v => if lo ≤ v ∧ v ≤ hi then some (v, v) else none
      | none => none
    | [a, b] =>
      match parseNatChars a, parseNatChars b with
      | some va, some vb => if lo ≤ va ∧ va ≤ vb ∧ vb ≤ hi then some (va, vb) else none
      | _, _ => none
    | _ => none

/-- Parses one comma-separated part of a cron field, with an optional
`/step` suffix. -/
def parsePart (lo hi : Nat) (cs : List Char) : Option (List Nat) :=
  match splitList '/' cs with
  | [base] => (parseBase lo hi base).map (fun p => rangeList p.1 p.2 1)
  | [base, st] =>
    match parseBase lo hi base, parseNatChars st with
    | some p, some n => if 0 < n then some (rangeList p.1 p.2 n) else none
    | _, _ => none
  | _ => none

/-- Parses a full cron field (comma-separated parts). -/
def parseField (lo hi : Nat) (cs : List Char) : Option (List Nat) :=
  match (splitList ',' cs).mapM (parsePart lo hi) with
  | some ls => some ls.flatten
  | none => none

/-- The whitespace-separated fields of a cron string. -/
def cronFields (s : String) : List (List Char) :=
  (splitList ' ' s.data).filter (fun f => !f.isEmpty)

/-- Models the `croniter(expr, ...)` constructor: parses a 5-field cron
expression, returning `none` where croniter raises on malformed input.
Day-of-week values are normalised mod 7 (croniter accepts 0-7 with both 0
and 7 denoting Sunday). -/
def parseCron (s : String) : Option CronExpr :=
  match cronFields s with
  | [f1, f2, f3, f4, f5] =>
    match parseField 0 59 f1, parseField 0 23 f2, parseField 1 31 f3,
        parseField 1 12 f4, parseField 0 7 f5 with
    | some mins, some hrs, some ds, some mos, some dws =>
      some ⟨mins, hrs, ds, mos, dws.map (· % 7), f3 = ['*'], f5 = ['*']⟩
    | _, _, _, _, _ => none
  | _ => none

/-- Whether the day of `t` is selected by the cron expression, following
the standard cron rule: month must match, and day-of-month / day-of-week
constrain jointly (OR when both are restricted, AND with `*` otherwise). -/
def CronExpr.dayMatches (c : CronExpr) (t : DateTime) : Bool :=
  c.months.contains t.month &&
    (if c.domStar && c.dowStar then true
     else if c.domStar then c.dows.contains (dayOfWeek t.year t.month t.day)
     else if c.dowStar then c.doms.contains t.day
     else c.doms.contains t.day || c.dows.contains (dayOfWeek t.year t.month t.day))

/-- Whether `t` is a firing instant of the cron expression. -/
def CronExpr.fires (c : CronExpr) (t : DateTime) : Bool :=
  c.dayMatches t && c.hours.contains t.hour && c.minutes.contains t.minute

/-- Forward search for the next firing instant at or after `t`, skipping
whole non-matching days and hours (fuel-bounded). -/
def nextFiringAux (c : CronExpr) : Nat → DateTime → Option DateTime
  | 0, _ => none
  | n + 1, t =>
    if c.dayMatches t then
      if c.hours.contains t.hour then
        if c.minutes.contains t.minute then some t
        else nextFiringAux c n t.addMinute
      else nextFiringAux c n t.nextHourStart
    else nextFiringAux c n t.nextDayStart

/-- Backward search for the latest firing instant at or before `t`
(fuel-bounded). -/
def prevFiringAux (c : CronExpr) : Nat → DateTime → Option DateTime
  | 0, _ => none
  | n + 1, t =>
    if c.dayMatches t then
      if c.hours.contains t.hour then
        if c.minutes.contains t.minute then some t
        else prevFiringAux c n t.subMinute
      else prevFiringAux c n t.prevHourEnd
    else prevFiringAux c n t.prevDayEnd

/-- Search budget, modelling croniter's bounded search horizon (about four
years of day-level steps); exhaustion corresponds to the exception
croniter raises when a schedule has no reachable firing. -/
def searchFuel : Nat := 4000

/-- Models `iter.get_next(datetime)` seeded at `now`: the earliest firing
instant strictly after `now`. -/
def CronExpr.nextFiring (c : CronExpr) (now : DateTime) : Option DateTime :=
  nextFiringAux c searchFuel now.addMinute

/-- Models `iter.get_prev(datetime)` seeded at `now`: the latest firing
instant at or before `now` (see the module comment for why this is the
minute-precision reading of croniter's behaviour on `datetime.now()`). -/
def CronExpr.prevFiring (c : CronExpr) (now : DateTime) : Option DateTime :=
  prevFiringAux c searchFuel now

/-- One entry of `self._speed_rules`: a dict with optional keys `cron`,
`upload_limit` and `download_limit` (a missing key is `none`). -/
structure SpeedRule where
  cron : Option String
  upload_limit : Option Int
  download_limit : Option Int
deriving DecidableEq

/-- Outcome of evaluating one rule inside the loop body: `skipped` models
the `continue` taken when `rule.get("cron")` is falsy (missing, `None` or
the empty string); `failed` models the `except` branch (parse error or
exhausted firing search); `ok` carries the successfully computed value. -/
inductive EvalResult (α : Type) where
  | skipped : EvalResult α
  | failed : EvalResult α
  | ok : α → EvalResult α
deriving DecidableEq

/-- The loop body of `_get_current_rule` applied to one rule: computes
`(prev_dt, next_dt)` via croniter or reports why the rule was passed over. -/
def evalWindow (now : DateTime) (r : SpeedRule) : EvalResult (DateTime × DateTime) :=
  match r.cron with
  | none => .skipped
  | some s =>
    if s.data.isEmpty then .skipped
    else
      match parseCron s with
      | none => .failed
      | some c =>
        match c.prevFiring now, c.nextFiring now with
        | some p, some n => .ok (p, n)
        | none, _ => .failed
        | some _, none => .failed

/-- The loop body of `_get_next_rule_change_time` applied to one rule:
computes the rule's next firing time via croniter or reports why the rule
was passed over. -/
def evalNext (now : DateTime) (r : SpeedRule) : EvalResult DateTime :=
  match r.cron with
  | none => .skipped
  | some s =>
    if s.data.isEmpty then .skipped
    else
      match parseCron s with
      | none => .failed
      | some c =>
        match c.nextFiring now with
        | some t => .ok t
        | none => .failed

/-- The contribution of one rule to `matching_rules`: `some (rule, prev_dt)`
exactly when the window test `prev_dt <= now <= next_dt` of line 210
passes. -/
def windowEntry (now : DateTime) (r : SpeedRule) : Option (SpeedRule × DateTime) :=
  match evalWindow now r with
  | .ok (p, n) => if p.key ≤ now.key ∧ now.key ≤ n.key then some (r, p) else none
  | .skipped => none
  | .failed => none

/-- The `matching_rules` list built by the loop of `_get_current_rule`,
in rule-list order. -/
def matchingRules (rules : List SpeedRule) (now : DateTime) : List (SpeedRule × DateTime) :=
  rules.filterMap (windowEntry now)

/-- Python's `max(xs, key=k)` on a non-empty list: a left fold that
replaces the current best only on a strictly larger key, so the first
element attaining the maximum wins. -/
def pyMaxBy {α : Type} (k : α → Nat) : List α → Option α
  | [] => none
  | x :: xs => some (xs.foldl (fun a y => if k a < k y then y else a) x)

/-- Python's `min(xs)` on datetimes: a left fold that replaces the current
best only on a strictly smaller key. -/
def pyMin : List DateTime → Option DateTime
  | [] => none
  | x :: xs => some (xs.foldl (fun a y => if y.key < a.key then y else a) x)

/-- `_get_current_rule(self)` as a function of the rule list and `now`:
collect the matching rules, return `None` if there are none, otherwise
`max(matching_rules, key=lambda x: x[1])[0]`. -/
def get_current_rule (rules : List SpeedRule) (now : DateTime) : Option SpeedRule :=
  match pyMaxBy (fun x => x.2.key) (matchingRules rules now) with
  | none => none
  | some m => some m.1

/-- The contribution of one rule to `next_times` in
`_get_next_rule_change_time`. -/
def nextTimeOf (now : DateTime) (r : SpeedRule) : Option DateTime :=
  match evalNext now r with
  | .ok t => some t
  | .skipped => none
  | .failed => none

/-- The `next_times` list built by the loop of `_get_next_rule_change_time`,
in rule-list order. -/
def nextTimes (rules : List SpeedRule) (now : DateTime) : List DateTime :=
  rules.filterMap (nextTimeOf now)

/-- `_get_next_rule_change_time(self)` as a function of the rule list and
`now`: `None` when `next_times` is empty, else `min(next_times)`. -/
def get_next_rule_change_time (rules : List SpeedRule) (now : DateTime) : Option DateTime :=
  pyMin (nextTimes rules now)

/-- Number of rules that enter the `try` block of `_get_current_rule` and
hit its `except` branch (each one produces a parse-error log line). -/
def matcherErrors (rules : List SpeedRule) (now : DateTime) : Nat :=
  rules.countP (fun r => decide (evalWindow now r = .failed))

/-- Number of rules that enter the `try` block of
`_get_next_rule_change_time` and hit its `except` branch. -/
def plannerErrors (rules : List SpeedRule) (now : DateTime) : Nat :=
  rules.countP (fun r => decide (evalNext now r = .failed))

/-- The `data` slot of the dict returned by `get_current_state`: absent
(code 1 branch), JSON `null`, or the pair of limits read straight off the
resolved rule. -/
inductive StateData where
  | absent : StateData
  | null : StateData
  | limits : Option Int → Option Int → StateData
deriving DecidableEq

/-- The dict returned by `get_current_state`. -/
structure StateResponse where
  code : Nat
  msg : String
  data : StateData
deriving DecidableEq

/-- `get_current_state(self)` as a function of `self._enabled`,
`self._speed_rules` and `now` (lines 149-167 of the source). -/
def get_current_state (enabled : Bool) (rules : List SpeedRule) (now : DateTime) :
    StateResponse :=
  if !enabled || rules.isEmpty then ⟨1, "插件未启用或未配置规则", .absent⟩
  else
    match get_current_rule rules now with
    | none => ⟨0, "当前无生效规则", .null⟩
    | some r => ⟨0, "当前限速状态", .limits r.upload_limit r.download_limit⟩

/-- The MB/s → KB/s conversion of `check_and_set_speed_limit` line 252:
`limit * 1024 if limit >= 0 else -1`. -/
def convertLimit (v : Int) : Int :=
  if 0 ≤ v then v * 1024 else -1

/-- The pair of limits `check_and_set_speed_limit` passes to
`client.set_speed_limit`, for a resolved rule: each limit defaults to `-1`
when the key is missing (line 248-249) and is then converted (252-253). -/
def appliedLimits (r : SpeedRule) : Int × Int :=
  (convertLimit (r.upload_limit.getD (-1)), convertLimit (r.download_limit.getD (-1)))

/-- The default rule of the plugin's configuration form (line 142 of the
source): active on the hour, hours 8 through 23. -/
def ruleB : SpeedRule := ⟨some "0 8-23 * * *", some 1, some 2⟩

/-- A rule with the same schedule as `ruleB` but different limits, used to
exhibit the behaviour on identical window starts. -/
def ruleTie : SpeedRule := ⟨some "0 8-23 * * *", some 7, some 8⟩

/-- A rule firing daily at 13:30. -/
def ruleY : SpeedRule := ⟨some "30 13 * * *", some 5, some 6⟩

/-- A rule whose cron expression does not parse. -/
def ruleBad : SpeedRule := ⟨some "not-a-cron", some 3, some 4⟩

/-- A rule whose cron field is the empty string (falsy in Python). -/
def ruleEmptyCron : SpeedRule := ⟨some "", some 9, some 9⟩

/-- A rule with the default-form schedule and no limit keys. -/
def ruleNoLimits : SpeedRule := ⟨some "0 8-23 * * *", none, none⟩

/-- A rule with the default-form schedule and limits 2 and 3 MB/s. -/
def ruleC5 : SpeedRule := ⟨some "0 8-23 * * *", some 2, some 3⟩

/-- 2024-05-15 (a Wednesday) at 03:00. -/
def nowB : DateTime := ⟨2024, 5, 15, 3, 0⟩

/-- 2024-05-15 at 14:00. -/
def t14 : DateTime := ⟨2024, 5, 15, 14, 0⟩

/-- 2024-05-15 at 15:00. -/
def t15 : DateTime := ⟨2024, 5, 15, 15, 0⟩

theorem daysInMonth_pos (y m : Nat) : 0 < daysInMonth y m := by
  unfold daysInMonth
  split
  · split <;> omega
  · split <;> omega

theorem daysInMonth_le_31 (y m : Nat) : daysInMonth y m ≤ 31 := by
  unfold daysInMonth
  split
  · split <;> omega
  · split <;> omega

theorem nextDayStart_spec {t : DateTime} (hv : t.valid) :
    t.key < t.nextDayStart.key ∧ t.nextDayStart.valid := by
  obtain ⟨h1, h2, h3, h4, h5, h6⟩ := hv
  have h31 := daysInMonth_le_31 t.year t.month
  have hp2 := daysInMonth_pos t.year (t.month + 1)
  have hp3 := daysInMonth_pos (t.year + 1) 1
  unfold DateTime.nextDayStart
  split
  · constructor
    · simp only [DateTime.key]
      omega
    · simp only [DateTime.valid]
      omega
  · split
    · constructor
      · simp only [DateTime.key]
        omega
      · simp only [DateTime.valid]
        omega
    · constructor
      · simp only [DateTime.key]
        omega
      · simp only [DateTime.valid]
        omega

theorem nextHourStart_spec {t : DateTime} (hv : t.valid) :
    t.key < t.nextHourStart.key ∧ t.nextHourStart.valid := by
  obtain ⟨h1, h2, h3, h4, h5, h6⟩ := hv
  unfold DateTime.nextHourStart
  split
  · constructor
    · simp only [DateTime.key]
      omega
    · simp only [DateTime.valid]
      omega
  · exact nextDayStart_spec ⟨h1, h2, h3, h4, h5, h6⟩

theorem addMinute_spec {t : DateTime} (hv : t.valid) :
    t.key < t.addMinute.key ∧ t.addMinute.valid := by
  obtain ⟨h1, h2, h3, h4, h5, h6⟩ := hv
  unfold DateTime.addMinute
  split
  · constructor
    · simp only [DateTime.key]
      omega
    · simp only [DateTime.valid]
      omega
  · exact nextHourStart_spec ⟨h1, h2, h3, h4, h5, h6⟩

theorem nextFiringAux_sound (c : CronExpr) :
    ∀ (fuel : Nat) (t r : DateTime), t.valid → nextFiringAux c fuel t = some r →
      t.key ≤ r.key ∧ r.valid := by
  intro fuel
  induction fuel with
  | zero =>
    intro t r _ h
    exact absurd h (by simp [nextFiringAux])
  | succ n ih =>
    intro t r hv h
    unfold nextFiringAux at h
    split at h
    · split at h
      · split at h
        · cases h
          exact ⟨Nat.le_refl _, hv⟩
        · have hs := addMinute_spec hv
          have hr := ih _ r hs.2 h
          exact ⟨Nat.le_of_lt (Nat.lt_of_lt_of_le hs.1 hr.1), hr.2⟩
      · have hs := nextHourStart_spec hv
        have hr := ih _ r hs.2 h
        exact ⟨Nat.le_of_lt (Nat.lt_of_lt_of_le hs.1 hr.1), hr.2⟩
    · have hs := nextDayStart_spec hv
      have hr := ih _ r hs.2 h
      exact ⟨Nat.le_of_lt (Nat.lt_of_lt_of_le hs.1 hr.1), hr.2⟩

theorem nextFiring_gt {c : CronExpr} {now t : DateTime} (hv : now.valid)
    (h : c.nextFiring now = some t) : now.key < t.key := by
  unfold CronExpr.nextFiring at h
  have hs := addMinute_spec hv
  have hr := nextFiringAux_sound c searchFuel _ t hs.2 h
  exact Nat.lt_of_lt_of_le hs.1 hr.1

theorem evalNext_ok_gt {now : DateTime} {r : SpeedRule} {t : DateTime} (hv : now.valid)
    (h : evalNext now r = .ok t) : now.key < t.key := by
  unfold evalNext at h
  split at h
  · exact absurd h (by simp)
  · split at h
    · exact absurd h (by simp)
    · split at h
      · exact absurd h (by simp)
      · split at h
        · injection h with h
          subst h
          exact nextFiring_gt hv (by assumption)
        · exact absurd h (by simp)

theorem mem_matchingRules {rules : List SpeedRule} {now : DateTime} {m : SpeedRule × DateTime}
    (h : m ∈ matchingRules rules now) :
    m.1 ∈ rules ∧ ∃ n, evalWindow now m.1 = .ok (m.2, n) ∧ m.2.key ≤ now.key ∧ now.key ≤ n.key := by
  unfold matchingRules at h
  rw [List.mem_filterMap] at h
  obtain ⟨a, ha, hfa⟩ := h
  unfold windowEntry at hfa
  split at hfa
  · split at hfa
    · injection hfa with hfa
      subst hfa
      exact ⟨ha, by assumption, by assumption, by assumption⟩
    · exact absurd hfa (by simp)
  · exact absurd hfa (by simp)
  · exact absurd hfa (by simp)

theorem pyFoldMax_split {α : Type} (k : α → Nat) :
    ∀ (xs : List α) (x : α), ∃ l1 l2,
      x :: xs = l1 ++ (xs.foldl (fun a y => if k a < k y then y else a) x) :: l2 ∧
      (∀ y ∈ l1, k y < k (xs.foldl (fun a y => if k a < k y then y else a) x)) ∧
      (∀ y ∈ l2, k y ≤ k (xs.foldl (fun a y => if k a < k y then y else a) x)) := by
  intro xs
  induction xs with
  | nil =>
    intro x
    exact ⟨[], [], rfl, by simp, by simp⟩
  | cons z zs ih =>
    intro x
    simp only [List.foldl_cons]
    by_cases hk : k x < k z
    · simp only [if_pos hk]
      obtain ⟨l1, l2, heq, hlt, hle⟩ := ih z
      refine ⟨x :: l1, l2, by rw [List.cons_append, ← heq], ?_, hle⟩
      intro y hy
      rcases List.mem_cons.mp hy with rfl | hy'
      · cases l1 with
        | nil =>
          simp only [List.nil_append, List.cons.injEq] at heq
          exact heq.1 ▸ hk
        | cons a as =>
          simp only [List.cons_append, List.cons.injEq] at heq
          have haz : k z < k (zs.foldl (fun a y => if k a < k y then y else a) z) :=
            heq.1 ▸ hlt a (List.mem_cons_self a as)
          exact Nat.lt_trans hk haz
      · exact hlt y hy'
    · simp only [if_neg hk]
      obtain ⟨l1, l2, heq, hlt, hle⟩ := ih x
      revert heq hlt hle
      generalize List.foldl (fun a y => if k a < k y then y else a) x zs = R
      intro heq hlt hle
      cases l1 with
      | nil =>
        simp only [List.nil_append, List.cons.injEq] at heq
        refine ⟨[], z :: zs, ?_, by simp, ?_⟩
        · rw [List.nil_append, ← heq.1]
        · intro y hy
          rcases List.mem_cons.mp hy with rfl | hy'
          · exact heq.1 ▸ Nat.le_of_not_lt hk
          · exact hle y (heq.2 ▸ hy')
      | cons a as =>
        simp only [List.cons_append, List.cons.injEq] at heq
        refine ⟨x :: z :: as, l2, ?_, ?_, hle⟩
        · rw [List.cons_append, List.cons_append, heq.2]
        · intro y hy
          rcases List.mem_cons.mp hy with rfl | hy'
          · exact heq.1 ▸ hlt a (List.mem_cons_self a as)
          · rcases List.mem_cons.mp hy' with rfl | hy''
            · exact Nat.lt_of_le_of_lt (Nat.le_of_not_lt hk)
                (heq.1 ▸ hlt a (List.mem_cons_self a as))
            · exact hlt y (List.mem_cons_of_mem a hy'')

theorem pyMaxBy_split {α : Type} (k : α → Nat) {l : List α} {r : α}
    (h : pyMaxBy k l = some r) :
    ∃ l1 l2, l = l1 ++ r :: l2 ∧ (∀ y ∈ l1, k y < k r) ∧ (∀ y ∈ l2, k y ≤ k r) := by
  cases l with
  | nil => exact absurd h (by simp [pyMaxBy])
  | cons x xs =>
    unfold pyMaxBy at h
    injection h with h
    obtain ⟨l1, l2, heq, hlt, hle⟩ := pyFoldMax_split k xs x
    rw [h] at heq hlt hle
    exact ⟨l1, l2, heq, hlt, hle⟩

theorem pyFoldMin_mem :
    ∀ (xs : List DateTime) (x : DateTime),
      (xs.foldl (fun a y => if y.key < a.key then y else a) x) ∈ x :: xs := by
  intro xs
  induction xs with
  | nil =>
    intro x
    simp
  | cons z zs ih =>
    intro x
    simp only [List.foldl_cons]
    by_cases hk : z.key < x.key
    · simp only [if_pos hk]
      rcases List.mem_cons.mp (ih z) with h | h
      · rw [h]
        simp
      · exact List.mem_cons_of_mem x (List.mem_cons_of_mem z h)
    · simp only [if_neg hk]
      rcases List.mem_cons.mp (ih x) with h | h
      · rw [h]
        simp
      · exact List.mem_cons_of_mem x (List.mem_cons_of_mem z h)

theorem pyFoldMin_le :
    ∀ (xs : List DateTime) (x y : DateTime), y ∈ x :: xs →
      (xs.foldl (fun a b => if b.key < a.key then b else a) x).key ≤ y.key := by
  intro xs
  induction xs with
  | nil =>
    intro x y hy
    rcases List.mem_cons.mp hy with rfl | hy'
    · exact Nat.le_refl _
    · exact absurd hy' (by simp)
  | cons z zs ih =>
    intro x y hy
    simp only [List.foldl_cons]
    have hstep : (if z.key < x.key then z else x).key ≤ x.key ∧
        (if z.key < x.key then z else x).key ≤ z.key := by
      by_cases hk : z.key < x.key
      · simp only [if_pos hk]
        exact ⟨Nat.le_of_lt hk, Nat.le_refl _⟩
      · simp only [if_neg hk]
        exact ⟨Nat.le_refl _, Nat.le_of_not_lt hk⟩
    have hhead := ih (if z.key < x.key then z else x) (if z.key < x.key then z else x)
      (List.mem_cons_self _ _)
    rcases List.mem_cons.mp hy with rfl | hy'
    · exact Nat.le_trans hhead hstep.1
    · rcases List.mem_cons.mp hy' with rfl | hy''
      · exact Nat.le_trans hhead hstep.2
      · exact ih _ y (List.mem_cons_of_mem _ hy'')

theorem pyMin_mem {l : List DateTime} {t : DateTime} (h : pyMin l = some t) : t ∈ l := by
  cases l with
  | nil => exact absurd h (by simp [pyMin])
  | cons x xs =>
    unfold pyMin at h
    injection h with h
    exact h ▸ pyFoldMin_mem xs x

theorem pyMin_le {l : List DateTime} {t : DateTime} (h : pyMin l = some t) :
    ∀ y ∈ l, t.key ≤ y.key := by
  cases l with
  | nil => exact absurd h (by simp [pyMin])
  | cons x xs =>
    unfold pyMin at h
    injection h with h
    exact h ▸ pyFoldMin_le xs x

theorem pyMin_eq_none_iff {l : List DateTime} : pyMin l = none ↔ l = [] := by
  cases l <;> simp [pyMin]

theorem filterMap_middle_none {α β : Type} (f : α → Option β) (l1 l2 : List α) (r : α)
    (h : f r = none) : (l1 ++ r :: l2).filterMap f = (l1 ++ l2).filterMap f := by
  simp [List.filterMap_append, List.filterMap_cons, h]

theorem countP_middle_false {α : Type} (p : α → Bool) (l1 l2 : List α) (r : α)
    (h : p r = false) : (l1 ++ r :: l2).countP p = (l1 ++ l2).countP p := by
  simp [List.countP_append, List.countP_cons, h]

theorem nextTimeOf_eq_none_iff {now : DateTime} {r : SpeedRule} :
    nextTimeOf now r = none ↔ ∀ t, evalNext now r ≠ .ok t := by
  unfold nextTimeOf
  cases h : evalNext now r <;> simp

theorem nextTimeOf_eq_some_iff {now : DateTime} {r : SpeedRule} {t : DateTime} :
    nextTimeOf now r = some t ↔ evalNext now r = .ok t := by
  unfold nextTimeOf
  cases h : evalNext now r <;> simp

theorem parse_fail_entries_none (now : DateTime) {r : SpeedRule} {s : String}
    (h1 : r.cron = some s) (h2 : parseCron s = none) :
    windowEntry now r = none ∧ nextTimeOf now r = none := by
  unfold windowEntry nextTimeOf evalWindow evalNext
  rw [h1]
  by_cases he : s.data.isEmpty <;> simp [he, h2]

theorem falsy_cron_skipped (now : DateTime) {r : SpeedRule}
    (h : r.cron = none ∨ r.cron = some "") :
    evalWindow now r = .skipped ∧ evalNext now r = .skipped := by
  rcases h with h | h <;> unfold evalWindow evalNext <;> rw [h]
  · exact ⟨rfl, rfl⟩
  · exact ⟨rfl, rfl⟩

/-- C1: whatever rule list and instant `now` it is given, `_get_current_rule`
returns either `None` or a rule of the list whose croniter window
`(prev_dt, next_dt)` was successfully computed and satisfies
`prev_dt <= now <= next_dt` — it never returns a rule whose window does not
contain `now`. -/
theorem matcher_result_window_contains_now (rules : List SpeedRule) (now : DateTime)
    (r : SpeedRule) (h : get_current_rule rules now = some r) :
    r ∈ rules ∧ ∃ p n, evalWindow now r = .ok (p, n) ∧ p.key ≤ now.key ∧ now.key ≤ n.key := by
  unfold get_current_rule at h
  cases hm : pyMaxBy (fun x => x.2.key) (matchingRules rules now) with
  | none =>
    rw [hm] at h
    exact absurd h (by simp)
  | some m =>
    rw [hm] at h
    injection h with h
    subst h
    obtain ⟨l1, l2, heq, -, -⟩ := pyMaxBy_split _ hm
    have hmem : m ∈ matchingRules rules now := by
      rw [heq]
      simp
    obtain ⟨h1, n, h2, h3, h4⟩ := mem_matchingRules hmem
    exact ⟨h1, m.2, n, h2, h3, h4⟩

/-- Witness for C1 at the configuration form's default rule and
2024-05-15 14:00, where the matcher resolves `ruleB`. -/
theorem matcher_result_window_contains_now_witness :
    get_current_rule [ruleB] t14 = some ruleB ∧
      (ruleB ∈ [ruleB] ∧ ∃ p n, evalWindow t14 ruleB = .ok (p, n) ∧
        p.key ≤ t14.key ∧ t14.key ≤ n.key) :=
  ⟨by rfl, matcher_result_window_contains_now [ruleB] t14 ruleB (by rfl)⟩

/-- C2: when `_get_current_rule` returns a rule, that rule is one of the
candidates of `matching_rules` and its window start `prev_dt` is maximal
among all candidates (so in particular, with two or more overlapping
candidate windows the most recently started window wins). -/
theorem matcher_result_prev_maximal (rules : List SpeedRule) (now : DateTime)
    (r : SpeedRule) (h : get_current_rule rules now = some r) :
    ∃ p, (r, p) ∈ matchingRules rules now ∧
      ∀ y ∈ matchingRules rules now, y.2.key ≤ p.key := by
  unfold get_current_rule at h
  cases hm : pyMaxBy (fun x => x.2.key) (matchingRules rules now) with
  | none =>
    rw [hm] at h
    exact absurd h (by simp)
  | some m =>
    rw [hm] at h
    injection h with h
    subst h
    obtain ⟨l1, l2, heq, hlt, hle⟩ := pyMaxBy_split _ hm
    refine ⟨m.2, by rw [heq]; simp, ?_⟩
    intro y hy
    rw [heq] at hy
    rcases List.mem_append.mp hy with hy' | hy'
    · exact Nat.le_of_lt (hlt y hy')
    · rcases List.mem_cons.mp hy' with rfl | hy''
      · exact Nat.le_refl _
      · exact hle y hy''

/-- Witness for C2: at 2024-05-15 14:00 both `ruleB` (window start 14:00)
and `ruleY` (window start 13:30) are candidates, and the matcher returns
`ruleB`, the candidate with the later window start. -/
theorem matcher_result_prev_maximal_witness :
    (matchingRules [ruleB, ruleY] t14).length = 2 ∧
      get_current_rule [ruleB, ruleY] t14 = some ruleB ∧
      (∃ p, (ruleB, p) ∈ matchingRules [ruleB, ruleY] t14 ∧
        ∀ y ∈ matchingRules [ruleB, ruleY] t14, y.2.key ≤ p.key) :=
  ⟨by rfl, by rfl, matcher_result_prev_maximal [ruleB, ruleY] t14 ruleB (by rfl)⟩

/-- C3 (behaviour of the code at the claim's input): for the single-rule
list `[{cron: "0 8-23 * * *", upload_limit: 1, download_limit: 2}]` at
03:00, `_get_current_rule` does NOT return `None`: croniter yields
`prev_dt` = 23:00 of the previous day and `next_dt` = 08:00 of the same
day, the vacuously true test `prev_dt <= now <= next_dt` passes, and the
rule is returned. -/
theorem matcher_active_at_three_am :
    get_current_rule [ruleB] nowB = some ruleB ∧
      evalWindow nowB ruleB = .ok (⟨2024, 5, 14, 23, 0⟩, ⟨2024, 5, 15, 8, 0⟩) :=
  ⟨by rfl, by rfl⟩

/-- C4: `_get_next_rule_change_time` returns `None` exactly when no rule
produces a next firing time (no rule with a usable schedule), and any
returned instant is strictly after `now`, is the next firing time of one
of the rules, and is at most every rule's own next firing time — i.e. it
is the minimum of the valid rules' next firing times. -/
theorem planner_returns_min_strictly_future (rules : List SpeedRule) (now : DateTime)
    (hv : now.valid) :
    (get_next_rule_change_time rules now = none ↔
      ∀ r ∈ rules, ∀ t, evalNext now r ≠ .ok t) ∧
    ∀ t, get_next_rule_change_time rules now = some t →
      now.key < t.key ∧ (∃ r ∈ rules, evalNext now r = .ok t) ∧
        ∀ r ∈ rules, ∀ n, evalNext now r = .ok n → t.key ≤ n.key := by
  constructor
  · unfold get_next_rule_change_time
    rw [pyMin_eq_none_iff]
    unfold nextTimes
    rw [List.filterMap_eq_nil_iff]
    constructor
    · intro hall r hr t
      exact (nextTimeOf_eq_none_iff.mp (hall r hr)) t
    · intro hall r hr
      exact nextTimeOf_eq_none_iff.mpr (hall r hr)
  · intro t ht
    have htmem : t ∈ nextTimes rules now := pyMin_mem ht
    obtain ⟨r, hr, hrt⟩ := List.mem_filterMap.mp htmem
    refine ⟨evalNext_ok_gt hv (nextTimeOf_eq_some_iff.mp hrt),
      ⟨r, hr, nextTimeOf_eq_some_iff.mp hrt⟩, ?_⟩
    intro r' hr' n hn
    have hnmem : n ∈ nextTimes rules now :=
      List.mem_filterMap.mpr ⟨r', hr', nextTimeOf_eq_some_iff.mpr hn⟩
    exact pyMin_le ht n hnmem

/-- Witness for C4: at 2024-05-15 14:00 with rules `[ruleB, ruleY]`
(next firings 15:00 resp. next day 13:30), the planner returns 15:00,
which is strictly after 14:00. -/
theorem planner_returns_min_strictly_future_witness :
    t14.valid ∧ t14.key < t15.key :=
  ⟨by decide,
    (((planner_returns_min_strictly_future [ruleB, ruleY] t14 (by decide)).2) t15 (by rfl)).1⟩

/-- C5 counterexample: with the plugin enabled, the single rule
`{cron: "0 8-23 * * *", upload_limit: 2, download_limit: 3}` and
`now` = 2024-05-15 14:00, `get_current_state` returns the configured MB/s
values `2` and `3` in `data`, not the KB/s values `2048` and `3072` the
claim asserts. -/
theorem state_data_not_converted :
    (get_current_state true [ruleC5] t14).code = 0 ∧
      (get_current_state true [ruleC5] t14).data = StateData.limits (some 2) (some 3) ∧
      (get_current_state true [ruleC5] t14).data ≠
        StateData.limits (some (2 * 1024)) (some (3 * 1024)) :=
  ⟨by rfl, by rfl, by decide⟩

/-- C5 amended: `get_current_state` returns `code = 1` (and no `data`)
when the plugin is disabled or has no rules; `code = 0` with `data = null`
when no rule resolves; and otherwise `code = 0` with `data` holding the
resolved rule's configured `upload_limit`/`download_limit` values
unchanged (MB/s as configured, no unit conversion). -/
theorem state_response_characterization (enabled : Bool) (rules : List SpeedRule)
    (now : DateTime) :
    ((enabled = false ∨ rules = []) →
      (get_current_state enabled rules now).code = 1 ∧
        (get_current_state enabled rules now).data = .absent) ∧
    (enabled = true → rules ≠ [] → get_current_rule rules now = none →
      (get_current_state enabled rules now).code = 0 ∧
        (get_current_state enabled rules now).data = .null) ∧
    (enabled = true → rules ≠ [] → ∀ r, get_current_rule rules now = some r →
      (get_current_state enabled rules now).code = 0 ∧
        (get_current_state enabled rules now).data =
          .limits r.upload_limit r.download_limit) := by
  refine ⟨?_, ?_, ?_⟩
  · rintro (rfl | rfl)
    · simp [get_current_state]
    · simp [get_current_state]
  · intro he hne hr
    subst he
    unfold get_current_state
    rw [if_neg (by simpa using hne), hr]
    exact ⟨rfl, rfl⟩
  · intro he hne r hr
    subst he
    unfold get_current_state
    rw [if_neg (by simpa using hne), hr]
    exact ⟨rfl, rfl⟩

/-- Witness for C5's amended statement, on the resolved-rule branch. -/
theorem state_response_characterization_witness :
    get_current_rule [ruleC5] t14 = some ruleC5 ∧
      ((get_current_state true [ruleC5] t14).code = 0 ∧
        (get_current_state true [ruleC5] t14).data = .limits (some 2) (some 3)) :=
  ⟨by rfl,
    (state_response_characterization true [ruleC5] t14).2.2 rfl (by simp) ruleC5 (by rfl)⟩

/-- C6: the apply step's MB/s → KB/s conversion multiplies a limit of 2 by
1024 to get 2048 and leaves the sentinel -1 untouched (the sentinel is
never multiplied), both for the bare conversion and through
`check_and_set_speed_limit`'s applied pair. -/
theorem convert_limit_examples :
    convertLimit 2 = 2048 ∧ convertLimit (-1) = -1 ∧
      appliedLimits ⟨some "0 8-23 * * *", some 2, some (-1)⟩ = (2048, -1) := by
  refine ⟨by decide, by decide, ?_⟩
  show (convertLimit 2, convertLimit (-1)) = (2048, -1)
  decide

/-- C7: a rule whose cron string does not parse is skipped by both
`_get_current_rule` and `_get_next_rule_change_time`: each computes
exactly the result it would compute on the rule list with that rule
removed, so the remaining (valid) rules still resolve. -/
theorem unparsable_rule_removed (l1 l2 : List SpeedRule) (r : SpeedRule) (s : String)
    (now : DateTime) (h1 : r.cron = some s) (h2 : parseCron s = none) :
    get_current_rule (l1 ++ r :: l2) now = get_current_rule (l1 ++ l2) now ∧
      get_next_rule_change_time (l1 ++ r :: l2) now =
        get_next_rule_change_time (l1 ++ l2) now := by
  obtain ⟨hw, hn⟩ := parse_fail_entries_none now h1 h2
  constructor
  · unfold get_current_rule matchingRules
    rw [filterMap_middle_none _ _ _ _ hw]
  · unfold get_next_rule_change_time nextTimes
    rw [filterMap_middle_none _ _ _ _ hn]

/-- Witness for C7: `"not-a-cron"` does not parse; alongside the valid
`ruleB` the evaluation succeeds, the invalid rule is ignored by matcher
and planner alike, and `ruleB` still resolves. -/
theorem unparsable_rule_removed_witness :
    ruleBad.cron = some "not-a-cron" ∧ parseCron "not-a-cron" = none ∧
      (get_current_rule [ruleB, ruleBad] t14 = get_current_rule [ruleB] t14 ∧
        get_next_rule_change_time [ruleB, ruleBad] t14 =
          get_next_rule_change_time [ruleB] t14) ∧
      get_current_rule [ruleB, ruleBad] t14 = some ruleB :=
  ⟨rfl, by rfl,
    unparsable_rule_removed [ruleB] [] ruleBad "not-a-cron" t14 rfl (by rfl), by rfl⟩

/-- C8: the returned rule is the first element of `matching_rules`
attaining the maximal window start: every candidate before it in
configured order has a strictly smaller `prev_dt`, and every candidate
after it has a `prev_dt` no larger — so among candidates sharing the
identical maximal `prev_dt`, the earliest in rule-list order wins
(Python's `max` keeps the first maximum). -/
theorem matcher_tie_breaks_first_in_list (rules : List SpeedRule) (now : DateTime)
    (r : SpeedRule) (h : get_current_rule rules now = some r) :
    ∃ p l1 l2, matchingRules rules now = l1 ++ (r, p) :: l2 ∧
      (∀ y ∈ l1, y.2.key < p.key) ∧ (∀ y ∈ l2, y.2.key ≤ p.key) := by
  unfold get_current_rule at h
  cases hm : pyMaxBy (fun x => x.2.key) (matchingRules rules now) with
  | none =>
    rw [hm] at h
    exact absurd h (by simp)
  | some m =>
    rw [hm] at h
    injection h with h
    subst h
    obtain ⟨l1, l2, heq, hlt, hle⟩ := pyMaxBy_split _ hm
    exact ⟨m.2, l1, l2, heq, hlt, hle⟩

/-- Witness for C8: `ruleB` and `ruleTie` share the identical window start
14:00 at 2024-05-15 14:00; the matcher returns `ruleB`, the one earlier in
the configured list. -/
theorem matcher_tie_breaks_first_in_list_witness :
    matchingRules [ruleB, ruleTie] t14 =
        [(ruleB, ⟨2024, 5, 15, 14, 0⟩), (ruleTie, ⟨2024, 5, 15, 14, 0⟩)] ∧
      get_current_rule [ruleB, ruleTie] t14 = some ruleB ∧
      (∃ p l1 l2, matchingRules [ruleB, ruleTie] t14 = l1 ++ (ruleB, p) :: l2 ∧
        (∀ y ∈ l1, y.2.key < p.key) ∧ (∀ y ∈ l2, y.2.key ≤ p.key)) :=
  ⟨by rfl, by rfl, matcher_tie_breaks_first_in_list [ruleB, ruleTie] t14 ruleB (by rfl)⟩

/-- C9: in the apply step a missing `upload_limit`/`download_limit` key
defaults to -1, every negative configured value (not only -1) converts to
exactly -1 KB/s, and the ×1024 multiplication is applied exactly to
values ≥ 0. -/
theorem limit_defaults_and_negatives (r : SpeedRule) (v : Int) :
    (r.upload_limit = none → (appliedLimits r).1 = -1) ∧
    (r.download_limit = none → (appliedLimits r).2 = -1) ∧
    (v < 0 → convertLimit v = -1) ∧
    (0 ≤ v → convertLimit v = v * 1024) := by
  refine ⟨?_, ?_, ?_, ?_⟩
  · intro h
    simp [appliedLimits, h, convertLimit]
  · intro h
    simp [appliedLimits, h, convertLimit]
  · intro h
    unfold convertLimit
    rw [if_neg (by omega)]
  · intro h
    unfold convertLimit
    rw [if_pos h]

/-- Witness for C9 at a rule with no limit keys and at the negative
non-sentinel value -5. -/
theorem limit_defaults_and_negatives_witness :
    ruleNoLimits.upload_limit = none ∧ (-5 : Int) < 0 ∧
      (appliedLimits ruleNoLimits).1 = -1 ∧ convertLimit (-5) = -1 :=
  ⟨rfl, by decide, (limit_defaults_and_negatives ruleNoLimits (-5)).1 rfl,
    (limit_defaults_and_negatives ruleNoLimits (-5)).2.2.1 (by decide)⟩

/-- C10: a rule whose cron field is missing, `None` or the empty string is
silently skipped by both the matcher and the planner — results equal those
on the list with the rule removed, and the rule produces no parse-error
report (the error counters of both loops are unchanged). -/
theorem falsy_cron_rule_removed_silently (l1 l2 : List SpeedRule) (r : SpeedRule)
    (now : DateTime) (h : r.cron = none ∨ r.cron = some "") :
    get_current_rule (l1 ++ r :: l2) now = get_current_rule (l1 ++ l2) now ∧
      get_next_rule_change_time (l1 ++ r :: l2) now =
        get_next_rule_change_time (l1 ++ l2) now ∧
      matcherErrors (l1 ++ r :: l2) now = matcherErrors (l1 ++ l2) now ∧
      plannerErrors (l1 ++ r :: l2) now = plannerErrors (l1 ++ l2) now := by
  obtain ⟨hw, hn⟩ := falsy_cron_skipped now h
  refine ⟨?_, ?_, ?_, ?_⟩
  · unfold get_current_rule matchingRules
    rw [filterMap_middle_none _ _ _ _ (by unfold windowEntry; rw [hw])]
  · unfold get_next_rule_change_time nextTimes
    rw [filterMap_middle_none _ _ _ _ (by unfold nextTimeOf; rw [hn])]
  · unfold matcherErrors
    rw [countP_middle_false _ _ _ _ (by simp [hw])]
  · unfold plannerErrors
    rw [countP_middle_false _ _ _ _ (by simp [hn])]

/-- Witness for C10 at a rule whose cron field is the empty string,
alongside the valid `ruleB`. -/
theorem falsy_cron_rule_removed_silently_witness :
    (ruleEmptyCron.cron = none ∨ ruleEmptyCron.cron = some "") ∧
      (get_current_rule [ruleB, ruleEmptyCron] t14 = get_current_rule [ruleB] t14 ∧
        get_next_rule_change_time [ruleB, ruleEmptyCron] t14 =
          get_next_rule_change_time [ruleB] t14 ∧
        matcherErrors [ruleB, ruleEmptyCron] t14 = matcherErrors [ruleB] t14 ∧
        plannerErrors [ruleB, ruleEmptyCron] t14 = plannerErrors [ruleB] t14) :=
  ⟨Or.inr rfl,
    falsy_cron_rule_removed_silently [ruleB] [] ruleEmptyCron t14 (Or.inr rfl)⟩

end AutoSpeedLimit
